import Mathlib

/-!
Verification of the btb-phylo pipeline orchestrator (`btb_phylo.py`) and its
phylogeny helpers (`btbphylo/phylogeny.py`).

Python dictionaries holding run metadata are modelled extensionally as lookup
functions `String → Option Int` (`dict.update` overwrites on key collision,
plain assignment sets a single key).  File systems are modelled as lists of
paths.  Functions that raise in Python return `Except`/`Option` here, and the
external collaborators (snp-sites, snp-dists, megacc, S3 downloads) are fault
models: a step either succeeds, writing its output file, or raises.
-/

/-! ## Metadata dictionaries -/

/-- A Python dict from metadata-field name to value, modelled by its lookup
function.  Values in the claims under study are integer counts. -/
def MetaDict := String → Option Int

/-- `m.update(f)`: the fragment `f` wins on key collisions. -/
def dictUpdate (m f : MetaDict) : MetaDict :=
  fun k => match f k with
  | some v => some v
  | none => m k

/-- `m[key] = v`: plain single-key assignment. -/
def dictSet (m : MetaDict) (key : String) (v : Int) : MetaDict :=
  fun k => if k = key then some v else m k

/-- The empty dict. -/
def emptyMeta : MetaDict := fun _ => none

/-- A one-entry dict. -/
def singletonMeta (key : String) (v : Int) : MetaDict :=
  fun k => if k = key then some v else none

/-- Two dicts with no key in common (at every key at least one is absent). -/
def DisjointMeta (m m' : MetaDict) : Prop :=
  ∀ k, m k = none ∨ m' k = none

/-! ## `phylogeny.build_tree` (btbphylo/phylogeny.py)

The Python function counts the lines of the snp-sites output with
`for n_lines, _ in enumerate(f)`, launches megacc and breaks as soon as the
line index reaches 7, and after the loop warns when `n_lines < 7`.  When the
file has no lines the loop body never runs and the final `n_lines < 7` test
hits an unassigned local variable. -/

inductive TreeOutcome
  | ranMega
  | warned
  | unboundLocal
  deriving DecidableEq, Repr

/-- The `for n_lines, _ in enumerate(f)` loop of `build_tree`, started at
index `i`.  Reaching index 7 runs megacc and breaks (and the post-loop
`n_lines < 7` test is then false); exhausting the file leaves `n_lines` at the
last index, which triggers the warning, or—if the loop never ran—leaves it
unassigned. -/
def buildTreeGo : List String → Nat → TreeOutcome
  | [], i =>
    if i = 0 then .unboundLocal
    else if i - 1 < 7 then .warned
    else .ranMega
  | _ :: rest, i =>
    if i = 7 then .ranMega else buildTreeGo rest (i + 1)

/-- `phylogeny.build_tree`, as a function of the lines of the snp-sites
output file (the `tree_path` output argument plays no role in the control
flow modelled here). -/
def build_tree (lines : List String) : TreeOutcome :=
  buildTreeGo lines 0

/-- A multi-fasta file whose sequences each occupy one header line and one
sequence line (the layout snp-sites emits): sample `(name, seq)` contributes
the two lines `">" ++ name` and `seq`. -/
def fastaLines (seqs : List (String × String)) : List String :=
  seqs.flatMap (fun p => [">" ++ p.1, p.2])

/-! ## S3 URI parsing (btbphylo/phylogeny.py)

`match_s3_uri` applies the anchored regular expression
`^s3://s3-csu-\d{3,3}/+` to the URI and raises `BadS3UriError` when it does
not match; on a match it returns the matched prefix (literal, exactly three
digits, then the maximal run of slashes).  `extract_s3_bucket` then applies
`re.findall(r's3-csu-\d{3,3}', ...)` to that prefix and returns the first
match; `extract_s3_key` strips the matched prefix and joins the remainder
with `consensus/<sample>_consensus.fas`.  Strings are modelled as `List Char`.
-/

inductive S3Err
  | badUri (uri : List Char)
  | indexError
  deriving DecidableEq, Repr

/-- The literal part of the URI regular expression. -/
def s3LitPrefix : List Char := "s3://s3-csu-".toList

/-- The bucket-name regular expression's literal part. -/
def bucketLit : List Char := "s3-csu-".toList

/-- Match a literal character sequence at the head of the input, returning
the remainder. -/
def matchLit : List Char → List Char → Option (List Char)
  | [], s => some s
  | _ :: _, [] => none
  | c :: cs, x :: xs => if x = c then matchLit cs xs else none

/-- Match `^s3://s3-csu-\d{3,3}/+`: the literal prefix, exactly three digits,
then one or more slashes (greedy).  Returns `(matched text, remainder)`. -/
def s3UriMatch (s : List Char) : Option (List Char × List Char) :=
  match matchLit s3LitPrefix s with
  | none => none
  | some r1 =>
    match r1 with
    | d1 :: d2 :: d3 :: r2 =>
      if d1.isDigit && d2.isDigit && d3.isDigit then
        match r2 with
        | [] => none
        | c :: cs =>
          if c = '/' then
            some (s3LitPrefix ++ [d1, d2, d3] ++ '/' :: cs.takeWhile (fun x => x = '/'),
                  cs.dropWhile (fun x => x = '/'))
          else none
      else none
    | _ => none

/-- `phylogeny.match_s3_uri`: the matched substring, or `BadS3UriError`. -/
def match_s3_uri (s : List Char) : Except S3Err (List Char) :=
  match s3UriMatch s with
  | none => .error (.badUri s)
  | some (m, _) => .ok m

/-- One attempt of the unanchored bucket search at the current position:
`s3-csu-` followed by three digits. -/
def tryBucket (l : List Char) : Option (List Char) :=
  match matchLit bucketLit l with
  | none => none
  | some r =>
    match r with
    | d1 :: d2 :: d3 :: _ =>
      if d1.isDigit && d2.isDigit && d3.isDigit then
        some (bucketLit ++ [d1, d2, d3])
      else none
    | _ => none

/-- `re.findall(r's3-csu-\d{3,3}', l)[0]`: the leftmost match. -/
def findBucket : List Char → Option (List Char)
  | [] => none
  | c :: cs =>
    match tryBucket (c :: cs) with
    | some b => some b
    | none => findBucket cs

/-- `phylogeny.extract_s3_bucket` (`matches[0]` on an empty `findall` result
would raise an `IndexError`, modelled by `S3Err.indexError`). -/
def extract_s3_bucket (s : List Char) : Except S3Err (List Char) :=
  match match_s3_uri s with
  | .error e => .error e
  | .ok sub =>
    match findBucket sub with
    | some b => .ok b
    | none => .error .indexError

/-- `os.path.join a b` for the two-component joins used in
`extract_s3_key`. -/
def pathJoin (a b : List Char) : List Char :=
  if a = [] then b
  else if a.getLast? = some '/' then a ++ b
  else a ++ '/' :: b

/-- `phylogeny.extract_s3_key`: validates the URI, strips the matched prefix
with `re.sub`, and joins on `consensus/<sample>_consensus.fas`. -/
def extract_s3_key (s : List Char) (sample : List Char) : Except S3Err (List Char) :=
  match s3UriMatch s with
  | none => .error (.badUri s)
  | some (_, rest) =>
    .ok (pathJoin rest ("consensus".toList ++ '/' :: (sample ++ "_consensus.fas".toList)))

/-- Modelled from the spec: the bucket-naming pattern in the spec's words —
the string starts with `s3://s3-csu-` followed by exactly three digits and at
least one `/`. -/
def specS3UriShape (s : List Char) : Prop :=
  ∃ d1 d2 d3 rest, d1.isDigit = true ∧ d2.isDigit = true ∧ d3.isDigit = true ∧
    s = s3LitPrefix ++ [d1, d2, d3] ++ '/' :: rest

/-! ## The `phylo` (BUILD) stage (btb_phylo.py)

`phylo` resolves its input record set (explicit dataframe argument, else
`consistified_wgs.csv`, else `filtered_samples.csv`, else `ValueError`),
chooses the fasta directory (`tempfile.mkdtemp()` under light mode, else the
results directory), runs `build_multi_fasta`, then — unless `download_only` —
snp-sites, snp-dists and optionally megacc, and finally calls
`shutil.rmtree(fasta_path)` under light mode.  There is no `try/finally`
around the stage body.  The file system is a list of `FPath`s; each external
step opens/writes its output file and then either succeeds or raises, which
we model with a fault oracle `fails : PhyloStep → Bool`. -/

inductive FPath
  | tmpRoot
  | tmpFile (name : String)
  | resFile (name : String)
  | other (p : String)
  deriving DecidableEq, Repr

inductive PhyloStep
  | buildMultiFasta
  | snpSites
  | snpDists
  | megacc
  deriving DecidableEq, Repr

inductive PhyloErr
  | resolveError
  | stepError (s : PhyloStep)
  deriving DecidableEq, Repr

inductive DfSource
  | fromArg
  | fromConsistified
  | fromFiltered
  deriving DecidableEq, Repr

/-- The ordered input fallback at the top of `phylo`: the `df_filtered`
argument, else `consistified_wgs.csv` in the metadata folder, else
`filtered_samples.csv` there, else the `ValueError`. -/
def resolve_df (dfArg hasConsistified hasFiltered : Bool) : Option DfSource :=
  if dfArg then some .fromArg
  else if hasConsistified then some .fromConsistified
  else if hasFiltered then some .fromFiltered
  else none

structure PhyloArgs where
  dfArg : Bool
  hasConsistified : Bool
  hasFiltered : Bool
  downloadOnly : Bool
  buildTreeFlag : Bool
  lightMode : Bool
  deriving DecidableEq, Repr

/-- Is a path inside the light-mode temporary directory? -/
def inTmp : FPath → Bool
  | .tmpRoot => true
  | .tmpFile _ => true
  | _ => false

/-- The fasta output location: the temporary directory under light mode, the
results directory otherwise. -/
def fastaFile (light : Bool) (name : String) : FPath :=
  if light then .tmpFile name else .resFile name

/-- The body of `phylo` up to (but not including) the final
`if light_mode: shutil.rmtree(fasta_path)`.  Returns the error raised (if
any) together with the file system reached at that point. -/
def phyloCore (a : PhyloArgs) (fails : PhyloStep → Bool) (fs0 : List FPath) :
    Option PhyloErr × List FPath :=
  match resolve_df a.dfArg a.hasConsistified a.hasFiltered with
  | none => (some .resolveError, fs0)
  | some _ =>
    let fs1 := if a.lightMode then FPath.tmpRoot :: fs0 else fs0
    let fs2 := fastaFile a.lightMode "multi_fasta.fas" :: fs1
    if fails .buildMultiFasta then (some (.stepError .buildMultiFasta), fs2)
    else if a.downloadOnly then (none, fs2)
    else
      let fs3 := fastaFile a.lightMode "snps.fas" :: fs2
      if fails .snpSites then (some (.stepError .snpSites), fs3)
      else
        let fs4 := FPath.resFile "snps.csv" :: fs3
        if fails .snpDists then (some (.stepError .snpDists), fs4)
        else if a.buildTreeFlag then
          let fs5 := FPath.resFile "mega" :: fs4
          if fails .megacc then (some (.stepError .megacc), fs5)
          else (none, fs5)
        else (none, fs4)

/-- `phylo`: the stage body followed by the light-mode cleanup, which only
runs on the normal (exception-free) exit path. -/
def phylo (a : PhyloArgs) (fails : PhyloStep → Bool) (fs0 : List FPath) :
    Option PhyloErr × List FPath :=
  match phyloCore a fails fs0 with
  | (none, fs) => (none, if a.lightMode then fs.filter (fun p => !(inTmp p)) else fs)
  | r => r

/-! ## `sample_filter` (btb_phylo.py)

Direct filtering arguments are `**kwargs`; a value is `None` when the
argument was not supplied (modelled `none`), otherwise a Python value whose
truthiness we record (`some true` = non-empty, `some false` = empty).  With
`config` set, the names of truthy arguments are collected into `error_keys`
and `any(error_keys)` (true iff some collected NAME is a non-empty string)
raises a `ValueError` listing them, before any filtering runs. -/

inductive FilterInvocation
  | fromConfig (path : String)
  | fromArgs (args : List (String × Option Bool))
  deriving DecidableEq, Repr

/-- The names of kwargs whose value is truthy (Python `if val`). -/
def errorKeys (kwargs : List (String × Option Bool)) : List String :=
  (kwargs.filter (fun kv => kv.2 = some true)).map (fun kv => kv.1)

/-- `sample_filter`'s argument handling.  On success it reports which
filtering invocation runs; the filtering itself (module `filter_samples`,
outside the orchestrator) happens only in the `.ok` cases. -/
def sample_filter (config : Option String) (kwargs : List (String × Option Bool)) :
    Except (List String) FilterInvocation :=
  match config with
  | some cfg =>
    if (errorKeys kwargs).any (fun k => !(k.isEmpty)) then
      .error (errorKeys kwargs)
    else
      .ok (.fromConfig cfg)
  | none =>
    .ok (.fromArgs (kwargs.filter (fun kv => kv.2 ≠ none)))

/-! ## `consistify_samples` (btb_phylo.py)

Validates that `cattle.csv` and `movement.csv` exist in the caller-supplied
directory before calling `consistify.consistify_csvs` (module outside the
orchestrator; its output files are a parameter here).  The returned list is
the set of files the call writes; nothing is written on the error paths. -/

def cattlePath (catMovPath : String) : String := catMovPath ++ "/cattle.csv"

def movementPath (catMovPath : String) : String := catMovPath ++ "/movement.csv"

def consistify_samples (fileExists : String → Bool) (catMovPath : String)
    (joinOutputs : List String) : Except String (List String) :=
  if !(fileExists (cattlePath catMovPath)) then
    .error ("Can't find cattle.csv in " ++ catMovPath)
  else if !(fileExists (movementPath catMovPath)) then
    .error ("Can't find movement.csv in " ++ catMovPath)
  else
    .ok joinOutputs

/-! ## The `run` entry point (btb_phylo.py)

`run` builds the initial metadata (datetime, git commit), invokes the chosen
stage chain, merges the returned fragment and only then writes
`metadata.json` into the results directory.  A stage-chain exception
propagates out before the write. -/

def metadataJson (resultsPath : String) : String :=
  resultsPath ++ "/metadata/metadata.json"

/-- `run`: result of the stage chain (`Except`) determines whether
`metadata.json` is written.  Returns the final outcome and file list. -/
def run_entry (initMeta : MetaDict) (stage : Except String MetaDict)
    (resultsPath : String) (fs0 : List String) :
    Except String MetaDict × List String :=
  match stage with
  | .error e => (.error e, fs0)
  | .ok frag => (.ok (dictUpdate initMeta frag), metadataJson resultsPath :: fs0)

/-! ## Pipeline metadata accumulation (btb_phylo.py)

`full_pipeline` merges the stage fragments in stage order:
`metadata = metadata_update`, `metadata.update(metadata_filt)`, optionally
`metadata.update(metadata_consist)`, and finally
`metadata.update(metadata_phylo)`.

`view_bovine` runs `sample_filter` once per clade, keeping only the LAST
clade's fragment in `metadata_filt` while summing every fragment's
`number_of_filtered_samples` into `num_filtered_samples`; after the loop it
merges that last fragment, assigns the aggregate
`metadata["number_of_filtered_samples"] = num_filtered_samples`, and merges
the consistify and phylo fragments.  The stage fragments themselves come
from modules outside the orchestrator (`update_summary`, `filter_samples`,
`consistify`), so they are universally quantified parameters here. -/

def aggKey : String := "number_of_filtered_samples"

/-- The run metadata after `full_pipeline`'s FILTER stage. -/
def fp_after_filter (mU mF : MetaDict) : MetaDict := dictUpdate mU mF

/-- The run metadata after `full_pipeline`'s (conditional) CONSISTIFY
stage. -/
def fp_after_consistify (useCatMov : Bool) (mU mF mC : MetaDict) : MetaDict :=
  if useCatMov then dictUpdate (fp_after_filter mU mF) mC else fp_after_filter mU mF

/-- The run metadata `full_pipeline` returns. -/
def full_pipeline_meta (useCatMov : Bool) (mU mF mC mP : MetaDict) : MetaDict :=
  dictUpdate (fp_after_consistify useCatMov mU mF mC) mP

/-- `num_filtered_samples`: the loop of `view_bovine` reads
`metadata_filt["number_of_filtered_samples"]` from every per-clade fragment
and sums (a missing key would be a `KeyError`, hence `Option`). -/
def totalFiltered (frags : List MetaDict) : Option Int :=
  frags.foldlM (fun acc f => (f aggKey).map (fun v => acc + v)) 0

/-- The run metadata after `view_bovine`'s clade-stratified FILTER stage:
the last clade's fragment is merged and the aggregate count assigned.
`none` when the clade table is empty (the Python loop variable
`metadata_filt` would then be unbound). -/
def vb_after_filter (mU : MetaDict) (frags : List MetaDict) : Option MetaDict :=
  match frags.getLast?, totalFiltered frags with
  | some fLast, some total => some (dictSet (dictUpdate mU fLast) aggKey total)
  | _, _ => none

/-- The run metadata after `view_bovine`'s CONSISTIFY stage. -/
def vb_after_consistify (mU : MetaDict) (frags : List MetaDict) (mC : MetaDict) :
    Option MetaDict :=
  (vb_after_filter mU frags).map (fun m => dictUpdate m mC)

/-- The run metadata `view_bovine` returns. -/
def view_bovine_meta (mU : MetaDict) (frags : List MetaDict) (mC mP : MetaDict) :
    Option MetaDict :=
  (vb_after_consistify mU frags mC).map (fun m => dictUpdate m mP)

/-! ## Supporting lemmas -/

theorem dictUpdate_some_left (m f : MetaDict) (k : String) (v : Int)
    (hm : m k = some v) (hf : f k = none) : dictUpdate m f k = some v := by
  simp [dictUpdate, hf, hm]

theorem dictUpdate_some_right (m f : MetaDict) (k : String) (v : Int)
    (hf : f k = some v) : dictUpdate m f k = some v := by
  simp [dictUpdate, hf]

theorem dictSet_ne (m : MetaDict) (key k : String) (v : Int) (h : k ≠ key) :
    dictSet m key v k = m k := by
  simp [dictSet, h]

theorem singletonMeta_disjoint (a b : String) (v w : Int) (h : a ≠ b) :
    DisjointMeta (singletonMeta a v) (singletonMeta b w) := by
  intro k
  by_cases hk : k = a
  · right; simp [singletonMeta, hk, h]
  · left; simp [singletonMeta, hk]

theorem buildTreeGo_eq (lines : List String) :
    ∀ i, i ≤ 7 →
      buildTreeGo lines i =
        if lines.isEmpty ∧ i = 0 then .unboundLocal
        else if 8 ≤ i + lines.length then .ranMega
        else .warned := by
  induction lines with
  | nil =>
    intro i hi
    match i, hi with
    | 0, _ => simp [buildTreeGo]
    | (j+1), hj =>
      have h1 : ¬ (j + 1 = 0) := by omega
      have h2 : j + 1 - 1 < 7 := by omega
      have h3 : ¬ (8 ≤ j + 1 + ([] : List String).length) := by
        simp only [List.length_nil]; omega
      simp only [buildTreeGo]
      rw [if_neg h1, if_pos h2, if_neg (by simp [h1]), if_neg h3]
  | cons a rest ih =>
    intro i hi
    by_cases h7 : i = 7
    · subst h7
      have h8 : 8 ≤ 7 + (rest.length + 1) := by omega
      simp [buildTreeGo, h8]
    · have hle : i + 1 ≤ 7 := by omega
      have := ih (i + 1) hle
      simp only [buildTreeGo, h7, if_false]
      rw [this]
      have hne : ¬ ((a :: rest).isEmpty = true ∧ i = 0) := by
        simp [List.isEmpty_cons]
      have harith : (8 ≤ i + 1 + rest.length) ↔ (8 ≤ i + (a :: rest).length) := by
        simp [List.length_cons]; omega
      by_cases hemp : rest.isEmpty ∧ i + 1 = 0
      · omega
      · simp only [hemp, if_false, hne, if_false]
        by_cases h8 : 8 ≤ i + 1 + rest.length
        · rw [if_pos h8, if_pos (harith.mp h8)]
        · rw [if_neg h8, if_neg (fun hc => h8 (harith.mpr hc))]

theorem build_tree_eq (lines : List String) :
    build_tree lines =
      if lines.isEmpty then .unboundLocal
      else if 8 ≤ lines.length then .ranMega
      else .warned := by
  have := buildTreeGo_eq lines 0 (by omega)
  simpa [build_tree] using this

theorem fastaLines_length (seqs : List (String × String)) :
    (fastaLines seqs).length = 2 * seqs.length := by
  induction seqs with
  | nil => simp [fastaLines]
  | cons a rest ih =>
    simp only [fastaLines, List.flatMap_cons] at *
    simp [ih]
    omega

theorem matchLit_eq_some (lit : List Char) :
    ∀ s r, matchLit lit s = some r ↔ s = lit ++ r := by
  induction lit with
  | nil =>
    intro s r
    simp [matchLit, eq_comm]
  | cons c cs ih =>
    intro s r
    cases s with
    | nil => simp [matchLit]
    | cons x xs =>
      by_cases hx : x = c
      · subst hx
        simp only [matchLit, if_pos rfl, List.cons_append, List.cons.injEq, true_and]
        exact ih xs r
      · simp [matchLit, hx]

theorem s3UriMatch_shape_of_some (s : List Char) (pr : List Char × List Char)
    (hm : s3UriMatch s = some pr) : specS3UriShape s := by
  unfold s3UriMatch at hm
  split at hm
  · exact absurd hm (by simp)
  · rename_i r1 heq
    split at hm
    · rename_i d1 d2 d3 r2
      split at hm
      · rename_i hd
        split at hm
        · exact absurd hm (by simp)
        · rename_i c cs
          split at hm
          · rename_i hc
            subst hc
            rw [Bool.and_eq_true, Bool.and_eq_true] at hd
            refine ⟨d1, d2, d3, cs, hd.1.1, hd.1.2, hd.2, ?_⟩
            have := (matchLit_eq_some s3LitPrefix s _).mp heq
            simpa using this
          · exact absurd hm (by simp)
      · exact absurd hm (by simp)
    · exact absurd hm (by simp)

theorem s3UriMatch_of_shape (s : List Char) (d1 d2 d3 : Char) (rest : List Char)
    (h1 : d1.isDigit = true) (h2 : d2.isDigit = true) (h3 : d3.isDigit = true)
    (hs : s = s3LitPrefix ++ [d1, d2, d3] ++ '/' :: rest) :
    s3UriMatch s =
      some (s3LitPrefix ++ [d1, d2, d3] ++ '/' :: rest.takeWhile (fun x => x = '/'),
            rest.dropWhile (fun x => x = '/')) := by
  have hlit : matchLit s3LitPrefix s = some ([d1, d2, d3] ++ '/' :: rest) := by
    rw [matchLit_eq_some]
    simp [hs]
  unfold s3UriMatch
  rw [hlit]
  simp [h1, h2, h3]

theorem s3UriMatch_none_iff (s : List Char) :
    s3UriMatch s = none ↔ ¬ specS3UriShape s := by
  constructor
  · intro hnone hshape
    obtain ⟨d1, d2, d3, rest, h1, h2, h3, hs⟩ := hshape
    rw [s3UriMatch_of_shape s d1 d2 d3 rest h1 h2 h3 hs] at hnone
    exact Option.noConfusion hnone
  · intro hnshape
    cases hm : s3UriMatch s with
    | none => rfl
    | some pr => exact absurd (s3UriMatch_shape_of_some s pr hm) hnshape

theorem s3LitPrefix_chars :
    s3LitPrefix = ['s', '3', ':', '/', '/', 's', '3', '-', 'c', 's', 'u', '-'] := by
  rfl

theorem bucketLit_chars : bucketLit = ['s', '3', '-', 'c', 's', 'u', '-'] := by
  rfl

theorem findBucket_matched (d1 d2 d3 : Char) (t1 : List Char)
    (h1 : d1.isDigit = true) (h2 : d2.isDigit = true) (h3 : d3.isDigit = true) :
    findBucket (s3LitPrefix ++ [d1, d2, d3] ++ '/' :: t1) =
      some (bucketLit ++ [d1, d2, d3]) := by
  simp [s3LitPrefix_chars, bucketLit_chars, findBucket, tryBucket, matchLit, h1, h2, h3]

theorem match_s3_uri_of_shape (s : List Char) (d1 d2 d3 : Char) (rest : List Char)
    (h1 : d1.isDigit = true) (h2 : d2.isDigit = true) (h3 : d3.isDigit = true)
    (hs : s = s3LitPrefix ++ [d1, d2, d3] ++ '/' :: rest) :
    match_s3_uri s =
      .ok (s3LitPrefix ++ [d1, d2, d3] ++ '/' :: rest.takeWhile (fun x => x = '/')) := by
  unfold match_s3_uri
  rw [s3UriMatch_of_shape s d1 d2 d3 rest h1 h2 h3 hs]

theorem match_s3_uri_error_iff (s : List Char) :
    match_s3_uri s = .error (.badUri s) ↔ ¬ specS3UriShape s := by
  constructor
  · intro herr
    rw [← s3UriMatch_none_iff]
    unfold match_s3_uri at herr
    cases hm : s3UriMatch s with
    | none => rfl
    | some pr => rw [hm] at herr; exact Except.noConfusion herr
  · intro hn
    unfold match_s3_uri
    rw [(s3UriMatch_none_iff s).mpr hn]

theorem extract_s3_bucket_of_shape (s : List Char) (d1 d2 d3 : Char) (rest : List Char)
    (h1 : d1.isDigit = true) (h2 : d2.isDigit = true) (h3 : d3.isDigit = true)
    (hs : s = s3LitPrefix ++ [d1, d2, d3] ++ '/' :: rest) :
    extract_s3_bucket s = .ok (bucketLit ++ [d1, d2, d3]) := by
  unfold extract_s3_bucket
  rw [match_s3_uri_of_shape s d1 d2 d3 rest h1 h2 h3 hs]
  have hf := findBucket_matched d1 d2 d3 (rest.takeWhile (fun x => x = '/')) h1 h2 h3
  simp only [List.append_assoc, List.cons_append, List.nil_append] at hf ⊢
  rw [hf]

theorem dictUpdate_preserve (m f : MetaDict) (k : String) (v : Int)
    (hm : m k = some v) (hdisj : DisjointMeta m f) : dictUpdate m f k = some v := by
  rcases hdisj k with h | h
  · rw [hm] at h; exact Option.noConfusion h
  · exact dictUpdate_some_left m f k v hm h

theorem totalFiltered_go (frags : List MetaDict) :
    ∀ counts : List Int,
      List.Forall₂ (fun (f : MetaDict) (c : Int) => f aggKey = some c) frags counts →
      ∀ acc : Int,
        frags.foldlM (fun acc f => (f aggKey).map (fun v => acc + v)) acc =
          some (acc + counts.sum) := by
  induction frags with
  | nil =>
    intro counts hc acc
    cases hc
    simp
  | cons f frags' ih =>
    intro counts hc acc
    cases hc with
    | cons hfc htail =>
      rename_i c counts'
      simp only [List.foldlM_cons, hfc, Option.map_some', Option.bind_eq_bind,
        Option.some_bind]
      rw [ih counts' htail (acc + c)]
      rw [List.sum_cons]
      ring_nf

theorem totalFiltered_counts (frags : List MetaDict) (counts : List Int)
    (hc : List.Forall₂ (fun (f : MetaDict) (c : Int) => f aggKey = some c) frags counts) :
    totalFiltered frags = some counts.sum := by
  have := totalFiltered_go frags counts hc 0
  simpa [totalFiltered] using this
/-! ## Claim theorems -/

/-- C10: `build_tree` is well-defined only on snp-sites output files with at
least one line — on a zero-line file its line-counting loop never assigns the
loop variable and the post-loop test raises an unhandled error, rather than
warning or invoking the external tool. -/
theorem build_tree_empty_file_unbound :
    ∀ lines : List String, build_tree lines = TreeOutcome.unboundLocal ↔ lines = [] := by
  intro lines
  rw [build_tree_eq]
  cases lines with
  | nil => simp
  | cons a l =>
    simp only [List.isEmpty_cons, Bool.false_eq_true, if_false]
    constructor
    · intro h
      by_cases h8 : 8 ≤ (a :: l).length
      · rw [if_pos h8] at h; exact TreeOutcome.noConfusion h
      · rw [if_neg h8] at h; exact TreeOutcome.noConfusion h
    · intro h; exact List.noConfusion h

/-- C3 counterexample: the claim promises that fewer than 4 sequences always
yields the non-fatal warning and a normal return, but on an snp-sites output
representing 0 sequences (an empty file) `build_tree` neither warns nor runs
megacc — it dies on the unbound loop variable. -/
theorem build_tree_min_taxa_counterexample :
    List.length ([] : List (String × String)) < 4 ∧
    build_tree (fastaLines []) ≠ TreeOutcome.warned ∧
    build_tree (fastaLines []) ≠ TreeOutcome.ranMega := by
  decide

/-- C3 (amended): for a non-empty snp-sites output file, `build_tree` invokes
megacc iff the file represents at least 4 sequences (two lines per sequence,
so at least 8 lines); with at least one but fewer than 4 sequences it emits
the non-fatal warning and returns normally.  (For an empty file it instead
raises the unbound-variable error.) -/
theorem build_tree_min_taxa_amended (seqs : List (String × String))
    (hne : seqs ≠ []) :
    (build_tree (fastaLines seqs) = TreeOutcome.ranMega ↔ 4 ≤ seqs.length) ∧
    (seqs.length < 4 → build_tree (fastaLines seqs) = TreeOutcome.warned) := by
  have hlen := fastaLines_length seqs
  rw [build_tree_eq]
  have hemp : (fastaLines seqs).isEmpty = false := by
    cases seqs with
    | nil => exact absurd rfl hne
    | cons a l => simp [fastaLines]
  rw [hemp]
  simp only [Bool.false_eq_true, if_false]
  by_cases h8 : 8 ≤ (fastaLines seqs).length
  · rw [if_pos h8]
    exact ⟨⟨fun _ => by omega, fun _ => rfl⟩, fun hlt => absurd h8 (by omega)⟩
  · rw [if_neg h8]
    exact ⟨⟨fun h => absurd h (by decide), fun h4 => absurd h8 (by omega)⟩,
           fun _ => rfl⟩

/-- C3 witness: with exactly 4 sequences (8 lines) megacc runs. -/
theorem build_tree_min_taxa_witness :
    ([("a", "AC"), ("b", "GT"), ("c", "AG"), ("d", "CT")] : List (String × String)) ≠ [] ∧
    ((build_tree (fastaLines [("a", "AC"), ("b", "GT"), ("c", "AG"), ("d", "CT")]) =
        TreeOutcome.ranMega ↔
      4 ≤ List.length [("a", "AC"), ("b", "GT"), ("c", "AG"), ("d", "CT")]) ∧
     (List.length [("a", "AC"), ("b", "GT"), ("c", "AG"), ("d", "CT")] < 4 →
      build_tree (fastaLines [("a", "AC"), ("b", "GT"), ("c", "AG"), ("d", "CT")]) =
        TreeOutcome.warned)) :=
  ⟨by decide, build_tree_min_taxa_amended [("a", "AC"), ("b", "GT"), ("c", "AG"), ("d", "CT")]
      (by decide)⟩

/-- C9: the `phylo` stage resolves its input by the fixed ordered fallback —
explicit dataframe argument, else `consistified_wgs.csv`, else
`filtered_samples.csv`, else an error raised before any phylogeny work (the
file system is returned untouched); exactly one of the four outcomes holds
for every combination of inputs. -/
theorem phylo_input_resolution (dfArg hC hF : Bool) :
    (resolve_df dfArg hC hF = some DfSource.fromArg ↔ dfArg = true) ∧
    (resolve_df dfArg hC hF = some DfSource.fromConsistified ↔
      dfArg = false ∧ hC = true) ∧
    (resolve_df dfArg hC hF = some DfSource.fromFiltered ↔
      dfArg = false ∧ hC = false ∧ hF = true) ∧
    (resolve_df dfArg hC hF = none ↔ dfArg = false ∧ hC = false ∧ hF = false) ∧
    (resolve_df dfArg hC hF = none →
      ∀ (dl bt lm : Bool) (fails : PhyloStep → Bool) (fs0 : List FPath),
        phylo ⟨dfArg, hC, hF, dl, bt, lm⟩ fails fs0 =
          (some PhyloErr.resolveError, fs0)) := by
  cases dfArg <;> cases hC <;> cases hF <;>
    simp [resolve_df, phylo, phyloCore]

/-- C1 counterexample: the claim says the light-mode temporary directory is
removed on every exit path including exceptions, but when snp-sites raises,
`phylo` propagates the exception and the temporary directory (holding the
concatenated multi-fasta) is still present. -/
theorem phylo_light_tmpdir_counterexample :
    (phylo ⟨true, false, false, false, false, true⟩
        (fun s => decide (s = PhyloStep.snpSites)) []).1 =
      some (PhyloErr.stepError PhyloStep.snpSites) ∧
    FPath.tmpRoot ∈ (phylo ⟨true, false, false, false, false, true⟩
        (fun s => decide (s = PhyloStep.snpSites)) []).2 ∧
    FPath.tmpFile "multi_fasta.fas" ∈ (phylo ⟨true, false, false, false, false, true⟩
        (fun s => decide (s = PhyloStep.snpSites)) []).2 := by
  decide

/-- C1 (amended): in light mode the BUILD stage writes the concatenated
multi-fasta (and, when it gets that far, the snp-sites output) into the fresh
temporary directory, and that directory is removed on the normal exit path;
but on the exit path where a stage step raises an exception the temporary
directory is NOT removed (there is no try/finally). -/
theorem phylo_light_tmpdir_amended (a : PhyloArgs) (fails : PhyloStep → Bool)
    (fs0 : List FPath) (hlight : a.lightMode = true)
    (hres : resolve_df a.dfArg a.hasConsistified a.hasFiltered ≠ none) :
    (FPath.tmpRoot ∈ (phyloCore a fails fs0).2 ∧
     FPath.tmpFile "multi_fasta.fas" ∈ (phyloCore a fails fs0).2) ∧
    (a.downloadOnly = false → fails PhyloStep.buildMultiFasta = false →
      FPath.tmpFile "snps.fas" ∈ (phyloCore a fails fs0).2) ∧
    ((phylo a fails fs0).1 = none →
      ∀ p ∈ (phylo a fails fs0).2, inTmp p = false) ∧
    (∀ e, (phylo a fails fs0).1 = some e →
      FPath.tmpRoot ∈ (phylo a fails fs0).2) := by
  cases hr : resolve_df a.dfArg a.hasConsistified a.hasFiltered with
  | none => exact absurd hr hres
  | some src =>
    cases hdl : a.downloadOnly <;> cases hbt : a.buildTreeFlag <;>
      cases h1 : fails PhyloStep.buildMultiFasta <;>
      cases h2 : fails PhyloStep.snpSites <;>
      cases h3 : fails PhyloStep.snpDists <;>
      cases h4 : fails PhyloStep.megacc <;>
      simp [phylo, phyloCore, hr, hlight, hdl, hbt, h1, h2, h3, h4, fastaFile,
        inTmp, List.mem_filter]

/-- C1 witness: a fault-free light-mode run leaves no temporary path behind,
and the stage body did write the fasta files into the temporary directory. -/
theorem phylo_light_tmpdir_witness :
    (⟨true, false, false, false, false, true⟩ : PhyloArgs).lightMode = true ∧
    resolve_df true false false ≠ none ∧
    (FPath.tmpRoot ∈
        (phyloCore ⟨true, false, false, false, false, true⟩ (fun _ => false) []).2 ∧
      FPath.tmpFile "multi_fasta.fas" ∈
        (phyloCore ⟨true, false, false, false, false, true⟩ (fun _ => false) []).2) ∧
    ((phylo ⟨true, false, false, false, false, true⟩ (fun _ => false) []).1 = none →
      ∀ p ∈ (phylo ⟨true, false, false, false, false, true⟩ (fun _ => false) []).2,
        inTmp p = false) :=
  ⟨rfl, by decide,
    (phylo_light_tmpdir_amended ⟨true, false, false, false, false, true⟩
        (fun _ => false) [] rfl (by decide)).1,
    (phylo_light_tmpdir_amended ⟨true, false, false, false, false, true⟩
        (fun _ => false) [] rfl (by decide)).2.2.1⟩

/-- C4: `consistify_samples` raises a file-not-found error naming the
offending file and directory whenever the cattle csv or the movement csv is
missing from the caller-supplied directory; the error is raised before the
join runs (the result is independent of, and does not contain, the join's
output files), and an error occurs for exactly the missing-file inputs. -/
theorem consistify_samples_missing_input (fileExists : String → Bool)
    (catMovPath : String) (joinOutputs : List String) :
    (fileExists (cattlePath catMovPath) = false →
      consistify_samples fileExists catMovPath joinOutputs =
        .error ("Can't find cattle.csv in " ++ catMovPath)) ∧
    (fileExists (cattlePath catMovPath) = true →
      fileExists (movementPath catMovPath) = false →
      consistify_samples fileExists catMovPath joinOutputs =
        .error ("Can't find movement.csv in " ++ catMovPath)) ∧
    ((∃ e, consistify_samples fileExists catMovPath joinOutputs = .error e) ↔
      (fileExists (cattlePath catMovPath) = false ∨
       fileExists (movementPath catMovPath) = false)) := by
  cases hc : fileExists (cattlePath catMovPath) <;>
    cases hm : fileExists (movementPath catMovPath) <;>
      simp [consistify_samples, hc, hm]

/-- C4 witness: with neither external file present the stage fails naming
`cattle.csv` and the directory, whatever the join would have produced. -/
theorem consistify_samples_missing_input_witness :
    consistify_samples (fun _ => false) "data" ["wgs.csv"] =
      .error ("Can't find cattle.csv in " ++ "data") :=
  (consistify_samples_missing_input (fun _ => false) "data" ["wgs.csv"]).1 rfl

/-- C8: the `run` entry point writes `metadata.json` only after the invoked
stage chain returns successfully: on a stage error the error propagates with
the file system unchanged (no metadata.json appears), and on success the
file is written with the merged metadata. -/
theorem run_writes_metadata_only_on_success (initMeta : MetaDict)
    (stage : Except String MetaDict) (resultsPath : String) (fs0 : List String) :
    (∀ e, stage = .error e →
      run_entry initMeta stage resultsPath fs0 = (.error e, fs0)) ∧
    (∀ e, stage = .error e → metadataJson resultsPath ∉ fs0 →
      metadataJson resultsPath ∉ (run_entry initMeta stage resultsPath fs0).2) ∧
    (∀ frag, stage = .ok frag →
      metadataJson resultsPath ∈ (run_entry initMeta stage resultsPath fs0).2 ∧
      (run_entry initMeta stage resultsPath fs0).1 = .ok (dictUpdate initMeta frag)) := by
  cases stage <;> simp [run_entry]

/-- C8 witness: an aborted run leaves the results directory without a
metadata.json. -/
theorem run_writes_metadata_only_on_success_witness :
    run_entry emptyMeta (.error "stage failed") "results" [] =
      (.error "stage failed", []) :=
  (run_writes_metadata_only_on_success emptyMeta (.error "stage failed")
      "results" []).1 "stage failed" rfl

theorem errorKeys_any_iff (kwargs : List (String × Option Bool))
    (hnames : ∀ kv ∈ kwargs, (kv.1).isEmpty = false) :
    ((errorKeys kwargs).any (fun k => !(k.isEmpty)) = true) ↔
      ∃ kv ∈ kwargs, kv.2 = some true := by
  simp only [List.any_eq_true, errorKeys, List.mem_map, List.mem_filter,
    decide_eq_true_eq]
  constructor
  · rintro ⟨k, ⟨kv, ⟨hmem, hval⟩, hfst⟩, hne⟩
    exact ⟨kv, hmem, hval⟩
  · rintro ⟨kv, hmem, hval⟩
    refine ⟨kv.1, ⟨kv, ⟨hmem, hval⟩, rfl⟩, ?_⟩
    simp [hnames kv hmem]

/-- C6: `sample_filter` raises the configuration `ValueError` — listing the
offending argument names — exactly when a config file is supplied together
with at least one truthy (non-empty) direct filtering argument, and the error
precludes the filtering invocation; config alone, or direct arguments alone,
never raise it.  (Kwarg names are the argparse destinations, hence
non-empty.) -/
theorem sample_filter_config_exclusive (cfg : String)
    (kwargs : List (String × Option Bool))
    (hnames : ∀ kv ∈ kwargs, (kv.1).isEmpty = false) :
    ((∃ e, sample_filter (some cfg) kwargs = .error e) ↔
      ∃ kv ∈ kwargs, kv.2 = some true) ∧
    (∀ e, sample_filter (some cfg) kwargs = .error e → e = errorKeys kwargs) ∧
    ((∀ kv ∈ kwargs, ¬ kv.2 = some true) →
      sample_filter (some cfg) kwargs = .ok (.fromConfig cfg)) ∧
    (∀ e, sample_filter none kwargs ≠ .error e) := by
  have hany := errorKeys_any_iff kwargs hnames
  cases hx : (errorKeys kwargs).any (fun k => !(k.isEmpty)) with
  | true =>
    simp only [sample_filter, hx, if_true]
    refine ⟨⟨fun _ => hany.mp hx, fun _ => ⟨errorKeys kwargs, rfl⟩⟩, ?_, ?_, ?_⟩
    · intro e he
      exact (Except.error.inj he).symm
    · intro hnone
      obtain ⟨kv, hm, hv⟩ := hany.mp hx
      exact absurd hv (hnone kv hm)
    · intro e
      simp
  | false =>
    simp only [sample_filter, hx, Bool.false_eq_true, if_false]
    refine ⟨⟨?_, ?_⟩, ?_, ?_, ?_⟩
    · rintro ⟨e, he⟩
      exact absurd he (by simp)
    · intro hex
      have h := hany.mpr hex
      rw [hx] at h
      exact Bool.noConfusion h
    · intro e he
      exact absurd he (by simp)
    · intro _
      trivial
    · intro e
      simp

/-- C6 witness: config plus one non-empty direct argument raises the
configuration error. -/
theorem sample_filter_config_exclusive_witness :
    ∃ e, sample_filter (some "config.json") [("flag", some true)] = .error e :=
  (sample_filter_config_exclusive "config.json" [("flag", some true)]
      (by decide)).1.mpr ⟨("flag", some true), by decide, rfl⟩

/-- C5: the storage-URI parser raises the distinct malformed-URI error
(`BadS3UriError`, carrying the URI) exactly when the input does not start
with `s3://s3-csu-` followed by exactly three digits and at least one `/`;
on a matching string `extract_s3_bucket` succeeds and returns the bucket
name `s3-csu-DDD` embedded in the URI (and `extract_s3_bucket` /
`extract_s3_key` propagate the same error on non-matching strings). -/
theorem match_s3_uri_pattern (s : List Char) :
    (match_s3_uri s = .error (.badUri s) ↔ ¬ specS3UriShape s) ∧
    (∀ d1 d2 d3 rest, d1.isDigit = true → d2.isDigit = true → d3.isDigit = true →
      s = s3LitPrefix ++ [d1, d2, d3] ++ '/' :: rest →
      extract_s3_bucket s = .ok (bucketLit ++ [d1, d2, d3])) ∧
    (¬ specS3UriShape s →
      extract_s3_bucket s = .error (.badUri s) ∧
      ∀ name, extract_s3_key s name = .error (.badUri s)) ∧
    s3LitPrefix = "s3://".toList ++ bucketLit := by
  refine ⟨match_s3_uri_error_iff s, ?_, ?_, by decide⟩
  · intro d1 d2 d3 rest h1 h2 h3 hs
    exact extract_s3_bucket_of_shape s d1 d2 d3 rest h1 h2 h3 hs
  · intro hn
    have hm := (s3UriMatch_none_iff s).mpr hn
    constructor
    · unfold extract_s3_bucket
      rw [(match_s3_uri_error_iff s).mpr hn]
    · intro name
      unfold extract_s3_key
      rw [hm]

/-- C5 witness: a well-formed URI yields its bucket, and a URI with a
two-digit bucket number is rejected with `BadS3UriError` (so its shape
refutation follows from the theorem). -/
theorem match_s3_uri_pattern_witness :
    extract_s3_bucket "s3://s3-csu-003/abc/123/".toList =
      .ok (bucketLit ++ ['0', '0', '3']) ∧
    ¬ specS3UriShape "s3://s3-csu-03/abc".toList :=
  ⟨(match_s3_uri_pattern "s3://s3-csu-003/abc/123/".toList).2.1
      '0' '0' '3' "abc/123/".toList (by decide) (by decide) (by decide) (by decide),
   (match_s3_uri_pattern "s3://s3-csu-03/abc".toList).1.mp (by rfl)⟩

/-- C7: in the clade-stratified ViewBovine run, the final merged metadata's
`number_of_filtered_samples` equals the sum of the per-clade filtered-sample
counts, provided the consistify and phylo fragments do not themselves carry
that key (their keys are the consistify drop counts and `number_of_snps`). -/
theorem view_bovine_aggregate_count (mU : MetaDict) (frags : List MetaDict)
    (counts : List Int) (mC mP : MetaDict)
    (hc : List.Forall₂ (fun (f : MetaDict) (c : Int) => f aggKey = some c) frags counts)
    (hne : frags ≠ [])
    (hmc : mC aggKey = none) (hmp : mP aggKey = none) :
    ∃ m, view_bovine_meta mU frags mC mP = some m ∧ m aggKey = some counts.sum := by
  have htot := totalFiltered_counts frags counts hc
  cases hlast : frags.getLast? with
  | none =>
    rw [List.getLast?_eq_none_iff] at hlast
    exact absurd hlast hne
  | some fLast =>
    refine ⟨dictUpdate (dictUpdate (dictSet (dictUpdate mU fLast) aggKey counts.sum) mC) mP,
      ?_, ?_⟩
    · simp [view_bovine_meta, vb_after_consistify, vb_after_filter, hlast, htot]
    · rw [dictUpdate_some_left _ _ _ _ (dictUpdate_some_left _ _ _ _ ?_ hmc) hmp]
      simp [dictSet]

/-- C7 witness: two clades with per-clade counts 12 and 7 give the aggregate
value 19. -/
theorem view_bovine_aggregate_count_witness :
    ∃ m, view_bovine_meta emptyMeta [singletonMeta aggKey 12, singletonMeta aggKey 7]
        emptyMeta emptyMeta = some m ∧ m aggKey = some 19 := by
  have h := view_bovine_aggregate_count emptyMeta
      [singletonMeta aggKey 12, singletonMeta aggKey 7] [12, 7] emptyMeta emptyMeta
      (by
        refine List.Forall₂.cons (by simp [singletonMeta]) ?_
        exact List.Forall₂.cons (by simp [singletonMeta]) List.Forall₂.nil)
      (by simp) rfl rfl
  simpa using h

theorem dictUpdate_eq_some (m f : MetaDict) (k : String) (v : Int)
    (h : dictUpdate m f k = some v) :
    f k = some v ∨ (f k = none ∧ m k = some v) := by
  cases hf : f k with
  | some w =>
    left
    simp only [dictUpdate, hf] at h
    exact h
  | none =>
    right
    simp only [dictUpdate, hf] at h
    exact ⟨rfl, h⟩

theorem getLast?_mem_list {α : Type} (l : List α) (a : α)
    (h : l.getLast? = some a) : a ∈ l := by
  obtain ⟨hne, heq⟩ := List.mem_getLast?_eq_getLast (Option.mem_def.mpr h)
  rw [heq]
  exact List.getLast_mem hne

/-- C2: merging stage metadata fragments never removes or replaces a key
written by an earlier stage — in `full_pipeline` and in the clade-stratified
`view_bovine`, any key/value present in the run metadata after an earlier
stage survives unchanged to the final merged metadata, given the
spec-guaranteed pairwise-disjoint key sets of the stage fragments (the
aggregate assignment of `number_of_filtered_samples` happens inside
`view_bovine`'s FILTER stage, whose checkpoint state `vb_after_filter`
already carries the summed value). -/
theorem metadata_merge_never_replaces
    (mU mF mC mP : MetaDict) (frags : List MetaDict)
    (hUF : DisjointMeta mU mF) (hUC : DisjointMeta mU mC) (hUP : DisjointMeta mU mP)
    (hFC : DisjointMeta mF mC) (hFP : DisjointMeta mF mP) (hCP : DisjointMeta mC mP)
    (hfragU : ∀ f ∈ frags, DisjointMeta mU f)
    (hfragC : ∀ f ∈ frags, DisjointMeta f mC)
    (hfragP : ∀ f ∈ frags, DisjointMeta f mP)
    (hfragKey : ∀ f ∈ frags, f aggKey ≠ none) :
    (∀ useCM k v, mU k = some v → full_pipeline_meta useCM mU mF mC mP k = some v) ∧
    (∀ useCM k v, fp_after_filter mU mF k = some v →
      full_pipeline_meta useCM mU mF mC mP k = some v) ∧
    (∀ useCM k v, fp_after_consistify useCM mU mF mC k = some v →
      full_pipeline_meta useCM mU mF mC mP k = some v) ∧
    (∀ k v m1, mU k = some v → vb_after_filter mU frags = some m1 →
      m1 k = some v) ∧
    (∀ k v m1, vb_after_filter mU frags = some m1 → m1 k = some v →
      ∃ m3, view_bovine_meta mU frags mC mP = some m3 ∧ m3 k = some v) ∧
    (∀ k v m2, vb_after_consistify mU frags mC = some m2 → m2 k = some v →
      ∃ m3, view_bovine_meta mU frags mC mP = some m3 ∧ m3 k = some v) := by
  have hfilter : ∀ k v, fp_after_filter mU mF k = some v →
      mF k = some v ∨ (mF k = none ∧ mU k = some v) :=
    fun k v h => dictUpdate_eq_some mU mF k v h
  have hfilter_pres : ∀ useCM k v, fp_after_filter mU mF k = some v →
      full_pipeline_meta useCM mU mF mC mP k = some v := by
    intro useCM k v h
    have hmc : mC k = none := by
      rcases hfilter k v h with hf | ⟨_, hu⟩
      · exact (hFC k).resolve_left (by rw [hf]; exact fun hc => Option.noConfusion hc)
      · exact (hUC k).resolve_left (by rw [hu]; exact fun hc => Option.noConfusion hc)
    have hmp : mP k = none := by
      rcases hfilter k v h with hf | ⟨_, hu⟩
      · exact (hFP k).resolve_left (by rw [hf]; exact fun hc => Option.noConfusion hc)
      · exact (hUP k).resolve_left (by rw [hu]; exact fun hc => Option.noConfusion hc)
    unfold full_pipeline_meta fp_after_consistify
    cases useCM with
    | true =>
      simp only [if_true]
      exact dictUpdate_some_left _ _ _ _ (dictUpdate_some_left _ _ _ _ h hmc) hmp
    | false =>
      simp only [Bool.false_eq_true, if_false]
      exact dictUpdate_some_left _ _ _ _ h hmp
  refine ⟨?_, hfilter_pres, ?_, ?_, ?_, ?_⟩
  · intro useCM k v hu
    apply hfilter_pres
    exact dictUpdate_some_left _ _ _ _ hu
      ((hUF k).resolve_left (by rw [hu]; exact fun hc => Option.noConfusion hc))
  · intro useCM k v h
    unfold fp_after_consistify at h
    cases useCM with
    | true =>
      simp only [if_true] at h
      rcases dictUpdate_eq_some _ _ _ _ h with hc | ⟨hcnone, hfil⟩
      · have hmp : mP k = none :=
          (hCP k).resolve_left (by rw [hc]; exact fun x => Option.noConfusion x)
        unfold full_pipeline_meta fp_after_consistify
        simp only [if_true]
        exact dictUpdate_some_left _ _ _ _ h hmp
      · have hx := hfilter_pres true k v hfil
        exact hx
    | false =>
      simp only [Bool.false_eq_true, if_false] at h
      exact hfilter_pres false k v h
  · intro k v m1 hu hm1
    unfold vb_after_filter at hm1
    cases hlast : frags.getLast? with
    | none => rw [hlast] at hm1; exact Option.noConfusion hm1
    | some fLast =>
      rw [hlast] at hm1
      cases htot : totalFiltered frags with
      | none => rw [htot] at hm1; exact Option.noConfusion hm1
      | some total =>
        rw [htot] at hm1
        have hmem : fLast ∈ frags := getLast?_mem_list frags fLast hlast
        have hkey : fLast aggKey ≠ none := hfragKey fLast hmem
        have hUagg : mU aggKey = none := ((hfragU fLast hmem) aggKey).resolve_right hkey
        have hkne : k ≠ aggKey := by
          intro hk
          rw [hk, hUagg] at hu
          exact Option.noConfusion hu
        have hflast : fLast k = none := ((hfragU fLast hmem) k).resolve_left
          (by rw [hu]; exact fun x => Option.noConfusion x)
        injection hm1 with hm1eq
        rw [← hm1eq, dictSet_ne _ _ _ _ hkne]
        exact dictUpdate_some_left _ _ _ _ hu hflast
  · intro k v m1 hm1 hk
    unfold vb_after_filter at hm1
    cases hlast : frags.getLast? with
    | none => rw [hlast] at hm1; exact Option.noConfusion hm1
    | some fLast =>
      rw [hlast] at hm1
      cases htot : totalFiltered frags with
      | none => rw [htot] at hm1; exact Option.noConfusion hm1
      | some total =>
        rw [htot] at hm1
        injection hm1 with hm1eq
        have hmem : fLast ∈ frags := getLast?_mem_list frags fLast hlast
        have hkey : fLast aggKey ≠ none := hfragKey fLast hmem
        have hdomC : mC k = none := by
          by_cases hka : k = aggKey
          · rw [hka]; exact ((hfragC fLast hmem) aggKey).resolve_left hkey
          · rw [← hm1eq, dictSet_ne _ _ _ _ hka] at hk
            rcases dictUpdate_eq_some _ _ _ _ hk with hf | ⟨_, hu⟩
            · exact ((hfragC fLast hmem) k).resolve_left
                (by rw [hf]; exact fun x => Option.noConfusion x)
            · exact (hUC k).resolve_left (by rw [hu]; exact fun x => Option.noConfusion x)
        have hdomP : mP k = none := by
          by_cases hka : k = aggKey
          · rw [hka]; exact ((hfragP fLast hmem) aggKey).resolve_left hkey
          · rw [← hm1eq, dictSet_ne _ _ _ _ hka] at hk
            rcases dictUpdate_eq_some _ _ _ _ hk with hf | ⟨_, hu⟩
            · exact ((hfragP fLast hmem) k).resolve_left
                (by rw [hf]; exact fun x => Option.noConfusion x)
            · exact (hUP k).resolve_left (by rw [hu]; exact fun x => Option.noConfusion x)
        refine ⟨dictUpdate (dictUpdate m1 mC) mP, ?_, ?_⟩
        · simp [view_bovine_meta, vb_after_consistify, vb_after_filter, hlast, htot, hm1eq]
        · exact dictUpdate_some_left _ _ _ _ (dictUpdate_some_left _ _ _ _ hk hdomC) hdomP
  · intro k v m2 hm2 hk
    unfold vb_after_consistify at hm2
    cases hfil : vb_after_filter mU frags with
    | none => rw [hfil] at hm2; exact Option.noConfusion hm2
    | some m1 =>
      rw [hfil] at hm2
      injection hm2 with hm2eq
      unfold vb_after_filter at hfil
      cases hlast : frags.getLast? with
      | none => rw [hlast] at hfil; exact Option.noConfusion hfil
      | some fLast =>
        rw [hlast] at hfil
        cases htot : totalFiltered frags with
        | none => rw [htot] at hfil; exact Option.noConfusion hfil
        | some total =>
          rw [htot] at hfil
          injection hfil with hfileq
          have hmem : fLast ∈ frags := getLast?_mem_list frags fLast hlast
          have hkey : fLast aggKey ≠ none := hfragKey fLast hmem
          have hdomP : mP k = none := by
            rw [← hm2eq] at hk
            rcases dictUpdate_eq_some _ _ _ _ hk with hc | ⟨_, hm1k⟩
            · exact (hCP k).resolve_left (by rw [hc]; exact fun x => Option.noConfusion x)
            · by_cases hka : k = aggKey
              · rw [hka]; exact ((hfragP fLast hmem) aggKey).resolve_left hkey
              · rw [← hfileq, dictSet_ne _ _ _ _ hka] at hm1k
                rcases dictUpdate_eq_some _ _ _ _ hm1k with hf | ⟨_, hu⟩
                · exact ((hfragP fLast hmem) k).resolve_left
                    (by rw [hf]; exact fun x => Option.noConfusion x)
                · exact (hUP k).resolve_left
                    (by rw [hu]; exact fun x => Option.noConfusion x)
          refine ⟨dictUpdate m2 mP, ?_, dictUpdate_some_left _ _ _ _ hk hdomP⟩
          simp [view_bovine_meta, vb_after_consistify, vb_after_filter, hlast, htot,
            ← hm2eq, hfileq]

/-- C2 witness: with concrete disjoint stage fragments (the filter fragments
carrying `number_of_filtered_samples`), a key written by the UPDATE stage
survives to the final `full_pipeline` metadata. -/
theorem metadata_merge_never_replaces_witness :
    full_pipeline_meta true (singletonMeta "number_of_samples" 1)
      (singletonMeta aggKey 7) (singletonMeta "consistify_dropped" 3)
      (singletonMeta "number_of_snps" 9) "number_of_samples" = some 1 := by
  have hfragmem : ∀ f ∈ [singletonMeta aggKey 12, singletonMeta aggKey 7],
      f = singletonMeta aggKey 12 ∨ f = singletonMeta aggKey 7 := by
    intro f hf
    simpa using hf
  have h := metadata_merge_never_replaces (singletonMeta "number_of_samples" 1)
      (singletonMeta aggKey 7) (singletonMeta "consistify_dropped" 3)
      (singletonMeta "number_of_snps" 9)
      [singletonMeta aggKey 12, singletonMeta aggKey 7]
      (singletonMeta_disjoint _ _ _ _ (by decide))
      (singletonMeta_disjoint _ _ _ _ (by decide))
      (singletonMeta_disjoint _ _ _ _ (by decide))
      (singletonMeta_disjoint _ _ _ _ (by decide))
      (singletonMeta_disjoint _ _ _ _ (by decide))
      (singletonMeta_disjoint _ _ _ _ (by decide))
      (by
        intro f hf
        rcases hfragmem f hf with rfl | rfl <;>
          exact singletonMeta_disjoint _ _ _ _ (by decide))
      (by
        intro f hf
        rcases hfragmem f hf with rfl | rfl <;>
          exact singletonMeta_disjoint _ _ _ _ (by decide))
      (by
        intro f hf
        rcases hfragmem f hf with rfl | rfl <;>
          exact singletonMeta_disjoint _ _ _ _ (by decide))
      (by
        intro f hf
        rcases hfragmem f hf with rfl | rfl <;> simp [singletonMeta, aggKey])
  exact h.1 true "number_of_samples" 1 (by simp [singletonMeta])

/-- C9 witness: with no dataframe argument and neither csv present, `phylo`
errors out with the file system untouched. -/
theorem phylo_input_resolution_witness :
    phylo ⟨false, false, false, false, false, false⟩ (fun _ => false) [] =
      (some PhyloErr.resolveError, []) :=
  (phylo_input_resolution false false false).2.2.2.2 rfl false false false
    (fun _ => false) []

/-- C10 witness: the zero-line file hits the unbound loop variable. -/
theorem build_tree_empty_file_unbound_witness :
    build_tree [] = TreeOutcome.unboundLocal :=
  (build_tree_empty_file_unbound []).mpr rfl
